import Mathlib

/-!
# stream_libarchive: archive entries as seekable streams

A shallow embedding of `stream/stream_libarchive.c`: the volume pattern
matcher, the archive handle constructor, the entry scan of `reopen_archive`,
and the read / seek emulation of the entry stream, followed by theorems about
them.

C strings are lists of characters (NUL-free by construction), `int` and
`int64_t` values are `Int` or `Nat` where the source keeps them non-negative.
The decoding library and the generic stream layer are collaborators whose
answers are supplied by an environment record.
-/

namespace StreamLibarchive

/-- A C string: the characters before the terminating NUL. -/
abbrev CStr := List Char

/-! ## printf-style formatting used by the volume patterns -/

/-- An argument handed to `talloc_asprintf`. -/
inductive Arg where
  | str (s : CStr)
  | int (i : Nat)

/-- The conversion `%.<prec>d` applied to a non-negative `int`: the decimal
digits, left-padded with zeros to at least `prec` digits. -/
def fmt_d (prec : Nat) (i : Nat) : CStr :=
  let ds := Nat.toDigits 10 i
  List.replicate (prec - ds.length) '0' ++ ds

/-- The conversion `%c`: the argument converted to `unsigned char`. -/
def fmt_c (i : Nat) : Char := Char.ofNat (i % 256)

/-- The fragment of `talloc_asprintf` that the pattern table relies on: the
directives `%s`, `%c` and `%.Nd` with a one-digit precision; every other
character of the format is copied. -/
def talloc_asprintf : CStr → List Arg → CStr
  | '%' :: 's' :: rest, Arg.str s :: args => s ++ talloc_asprintf rest args
  | '%' :: 'c' :: rest, Arg.int i :: args => fmt_c i :: talloc_asprintf rest args
  | '%' :: '.' :: p :: 'd' :: rest, Arg.int i :: args =>
    fmt_d (p.toNat - 48) i ++ talloc_asprintf rest args
  | c :: rest, args => c :: talloc_asprintf rest args
  | [], _ => []

/-! ## Volume pattern matcher -/

/-- Which address generator a pattern uses (the `volume_url` function
pointer of `struct file_pattern`). -/
inductive UrlFn where
  | standard
  | old_rar
  deriving DecidableEq, Repr

/-- The record `struct file_pattern`. -/
structure file_pattern where
  «match» : CStr
  format : CStr
  volume_url : UrlFn
  start : Nat
  stop : Nat
  deriving DecidableEq, Repr


/-- The generator `standard_volume_url`. -/
def standard_volume_url (p : file_pattern) (volume_base : CStr) (index : Nat) : CStr :=
  talloc_asprintf p.format [Arg.str volume_base, Arg.int index]

/-- The generator `old_rar_volume_url`: WinRAR increments the letter above
index 100. -/
def old_rar_volume_url (p : file_pattern) (volume_base : CStr) (index : Nat) : CStr :=
  talloc_asprintf p.format
    [Arg.str volume_base, Arg.int ('r'.toNat + index / 100), Arg.int (index % 100)]

/-- The call `p->volume_url(p, volume_base, index)`. -/
def file_pattern.url (p : file_pattern) (volume_base : CStr) (index : Nat) : CStr :=
  match p.volume_url with
  | UrlFn.standard => standard_volume_url p volume_base index
  | UrlFn.old_rar => old_rar_volume_url p volume_base index

/-- The static table `patterns` of `find_volume_pattern`, without its NULL
terminator. -/
def patterns : List file_pattern :=
  [ { «match» := ".part1.rar".toList, format := "%s.part%.1d.rar".toList,
      volume_url := UrlFn.standard, start := 2, stop := 9 },
    { «match» := ".part01.rar".toList, format := "%s.part%.2d.rar".toList,
      volume_url := UrlFn.standard, start := 2, stop := 99 },
    { «match» := ".part001.rar".toList, format := "%s.part%.3d.rar".toList,
      volume_url := UrlFn.standard, start := 2, stop := 999 },
    { «match» := ".rar".toList, format := "%s.%c%.2d".toList,
      volume_url := UrlFn.old_rar, start := 0, stop := 999 } ]

/-- The loop of `find_volume_pattern` over the rest of the table. -/
def find_in (location : CStr) : List file_pattern → Option file_pattern
  | [] => none
  | p :: ps =>
    if location.length < p.«match».length then find_in location ps
    else if location.drop (location.length - p.«match».length) = p.«match» then some p
    else find_in location ps

/-- The function `find_volume_pattern`: the first table entry whose suffix
ends the location. -/
def find_volume_pattern (location : CStr) : Option file_pattern :=
  find_in location patterns

/-- The string `volume_base` of `mp_archive_new`: the address without the
matched suffix (`"%.*s"` with `base_len`). -/
def volume_base (url : CStr) (pattern : file_pattern) : CStr :=
  url.take (url.length - pattern.«match».length)

/-- The addresses that the probing loop of `mp_archive_new` generates for a
primary address when no probe stops it early: `volume_url(pattern,
volume_base, i)` for `i = start .. stop`, and nothing without a pattern. -/
def volume_candidates (url : CStr) : List CStr :=
  match find_volume_pattern url with
  | none => []
  | some pattern =>
    (List.range' pattern.start (pattern.stop + 1 - pattern.start)).map
      (fun i => pattern.url (volume_base url pattern) i)

/-! ## Collaborators: generic streams and the decoding library -/

/-- The fields of `struct stream` that this file reads from an underlying
stream. -/
structure stream where
  url : CStr
  pos : Int
  seekable : Bool
  deriving DecidableEq, Repr

/-- The record `struct mp_archive_volume` (the shared read buffer is not
modelled). -/
structure mp_archive_volume where
  src : stream
  own_stream : Bool
  deriving DecidableEq, Repr

/-- Container formats that `mp_archive_new` can register. -/
inductive Format where
  | sevenzip | iso9660 | rar | zip | gnutar | tar
  deriving DecidableEq, Repr

/-- Compression filters that `mp_archive_new` registers. -/
inductive Filter where
  | bzip2 | gzip | xz
  deriving DecidableEq, Repr

/-- Client callbacks that `mp_archive_new` installs. -/
inductive Callback where
  | read | skip | switch | close | seek
  deriving DecidableEq, Repr

/-- libarchive status codes (archive.h). -/
def ARCHIVE_EOF : Int := 1
/-- Status code, operation succeeded. -/
def ARCHIVE_OK : Int := 0
/-- Status code, retry might succeed. -/
def ARCHIVE_RETRY : Int := -10
/-- Status code, partial success. -/
def ARCHIVE_WARN : Int := -20
/-- Status code, current operation cannot complete. -/
def ARCHIVE_FAILED : Int := -25
/-- Status code, no more operations are possible. -/
def ARCHIVE_FATAL : Int := -30
/-- File type of a regular file (archive_entry.h). -/
def AE_IFREG : Nat := 0o100000

/-- An entry descriptor together with the behaviour of its data stream.
`read_result c n` is what `archive_read_data` answers to a request for `n`
bytes once `c` bytes of the entry were delivered (a byte count, 0 at the end
of data, or a negative status); `seek_result o` is what `archive_seek_data`
answers for `SEEK_SET` to offset `o` (the new offset, or a negative status). -/
structure archive_entry where
  filetype : Nat
  pathname : Option CStr
  size : Option Int
  read_result : Nat → Nat → Int
  seek_result : Int → Int

/-- One answer of `archive_read_next_header`: the status and the entry. -/
structure header where
  r : Int
  entry : archive_entry

/-- A decoding session (`struct archive`): what was attached and registered,
the header answers still to come, the entry whose data is being read and how
many of its bytes were delivered. -/
structure archive where
  dataset : List mp_archive_volume
  formats : List Format
  filters : List Filter
  callbacks : List Callback
  headers : List header
  entry : Option archive_entry
  consumed : Nat

/-- The record `struct mp_archive` (the read buffer is not modelled). -/
structure mp_archive where
  arch : archive

/-- Answers of the collaborators during one operation: the generic stream
layer (`stream_create` with its `STREAM_SAFE_ONLY` bit, `stream_seek`,
`stream_tell`, `stream_get_size`, `mp_url_unescape_inplace`) and the
decoding library (`archive_read_new`, `archive_read_append_callback_data` by
number of volumes already attached, `archive_read_open1`, and the header
answers of the opened session). -/
structure Env where
  stream_create : CStr → Bool → Option stream
  stream_seek : stream → Int → Bool × stream
  stream_tell : stream → Int
  stream_get_size : stream → Int
  mp_url_unescape : CStr → CStr
  archive_read_new_ok : Bool
  archive_read_append_callback_data : Nat → Int
  archive_read_open1 : Int
  headers : List header

/-- A new session, or NULL. -/
def archive_read_new (env : Env) : Option archive :=
  if env.archive_read_new_ok then
    some { dataset := [], formats := [], filters := [], callbacks := [],
           headers := [], entry := none, consumed := 0 }
  else none

/-- The call `archive_read_data(arch, buffer, size)`: the status or byte
count, and the session afterwards. -/
def archive_read_data (a : archive) (size : Nat) : Int × archive :=
  match a.entry with
  | none => (ARCHIVE_FATAL, a)
  | some e =>
    let r := e.read_result a.consumed size
    if r < 0 then (r, a) else (r, { a with consumed := a.consumed + r.toNat })

/-- The call `archive_seek_data(arch, offset, SEEK_SET)`. -/
def archive_seek_data (a : archive) (offset : Int) : Int × archive :=
  match a.entry with
  | none => (ARCHIVE_FATAL, a)
  | some e =>
    let r := e.seek_result offset
    if r < 0 then (r, a) else (r, { a with consumed := r.toNat })

/-! ## Volume callbacks -/

/-- Origin constants of `seek_cb` (stdio.h). -/
def SEEK_SET : Int := 0
/-- Origin: relative to the current position. -/
def SEEK_CUR : Int := 1
/-- Origin: relative to the end. -/
def SEEK_END : Int := 2

/-- Two's complement wrap of an `int64_t` sum. -/
def wrap64 (x : Int) : Int := (x + 2 ^ 63) % 2 ^ 64 - 2 ^ 63

/-- The tail of `seek_cb`: `stream_seek(src, offset) ? stream_tell(src) : -1`. -/
def seek_to (env : Env) (vol : mp_archive_volume) (offset : Int) : Int × mp_archive_volume :=
  let res := env.stream_seek vol.src offset
  (if res.1 then env.stream_tell res.2 else -1, { vol with src := res.2 })

/-- The callback `seek_cb`: the returned position or -1, and the volume
afterwards. -/
def seek_cb (env : Env) (vol : mp_archive_volume) (offset : Int) (whence : Int) :
    Int × mp_archive_volume :=
  if whence = SEEK_SET then seek_to env vol offset
  else if whence = SEEK_CUR then seek_to env vol (wrap64 (offset + vol.src.pos))
  else if whence = SEEK_END then
    let size := env.stream_get_size vol.src
    if size < 0 then (-1, vol) else seek_to env vol (wrap64 (offset + size))
  else (-1, vol)

/-! ## Archive handle -/

/-- The flag `MP_ARCHIVE_FLAG_UNSAFE`. -/
def MP_ARCHIVE_FLAG_UNSAFE : Nat := 1

/-- The function `add_volume`: rewind the stream, wrap it in a volume and
append it to the session; the result tells whether the append returned
`ARCHIVE_OK`. -/
def add_volume (env : Env) (a : archive) (s : stream) (own_stream : Bool) : Bool × archive :=
  let vol : mp_archive_volume := { src := (env.stream_seek s 0).2, own_stream := own_stream }
  if env.archive_read_append_callback_data a.dataset.length = ARCHIVE_OK then
    (true, { a with dataset := a.dataset ++ [vol] })
  else (false, a)

/-- The probing loop of `mp_archive_new` from index `i`, with the number of
iterations left as fuel. It returns the session (none after a failed attach)
and the addresses handed to `stream_create`, in order. -/
def open_volumes (env : Env) (pattern : file_pattern) (base : CStr) :
    Nat → Nat → archive → List CStr → Option archive × List CStr
  | 0, _, a, tried => (some a, tried)
  | fuel + 1, i, a, tried =>
    if i ≤ pattern.stop then
      let volume_url := pattern.url base i
      match env.stream_create volume_url false with
      | none => (some a, tried ++ [volume_url])
      | some s =>
        let res := add_volume env a s true
        if res.1 then open_volumes env pattern base fuel (i + 1) res.2 (tried ++ [volume_url])
        else (none, tried ++ [volume_url])
    else (some a, tried)

/-- The registration block of `mp_archive_new`: the fixed formats and
filters, and the tar formats when the unsafe flag is set. -/
def register_formats (a : archive) (flags : Nat) : archive :=
  let a1 := { a with
    formats := a.formats ++ [Format.sevenzip, Format.iso9660, Format.rar, Format.zip],
    filters := a.filters ++ [Filter.bzip2, Filter.gzip, Filter.xz] }
  if flags &&& MP_ARCHIVE_FLAG_UNSAFE ≠ 0 then
    { a1 with formats := a1.formats ++ [Format.gnutar, Format.tar] }
  else a1

/-- The callback block of `mp_archive_new`: the seek callback only for a
seekable primary stream. -/
def install_callbacks (a : archive) (src : stream) : archive :=
  let a1 := { a with
    callbacks := a.callbacks ++ [Callback.read, Callback.skip, Callback.switch, Callback.close] }
  if src.seekable then { a1 with callbacks := a1.callbacks ++ [Callback.seek] } else a1

/-- The block "try to open other volumes" of `mp_archive_new`. -/
def probe_volumes (env : Env) (src : stream) (a : archive) : Option archive × List CStr :=
  match find_volume_pattern src.url with
  | none => (some a, [])
  | some pattern =>
    open_volumes env pattern (volume_base src.url pattern)
      (pattern.stop + 1 - pattern.start) pattern.start a []

/-- The function `mp_archive_new`: the handle (none where the source returns
NULL after tearing down) and the addresses handed to `stream_create`. -/
def mp_archive_new (env : Env) (src : stream) (flags : Nat) : Option mp_archive × List CStr :=
  match archive_read_new env with
  | none => (none, [])
  | some a0 =>
    let first := add_volume env a0 src false
    if first.1 then
      let probed := probe_volumes env src first.2
      match probed.1 with
      | none => (none, probed.2)
      | some a2 =>
        let a3 := install_callbacks (register_formats a2 flags) src
        if env.archive_read_open1 < ARCHIVE_OK then (none, probed.2)
        else (some { arch := { a3 with headers := env.headers } }, probed.2)
    else (none, [])

/-! ## Entry stream -/

/-- Modelled from the spec: the status codes of the generic stream layer are
declared in stream.h, which is not among the sources. An open or a seek
reports success or failure, and the code tests failure as a status below
`STREAM_OK`; the error status is 0 and the success status is 1. -/
def STREAM_ERROR : Int := 0
/-- Success status of the generic stream layer (see `STREAM_ERROR`). -/
def STREAM_OK : Int := 1

/-- The record `struct priv` of the entry stream. -/
structure priv where
  mpa : Option mp_archive
  src : Option stream
  entry_size : Int
  entry_name : CStr

/-- The entry stream object (`stream_t`): its path, the logical position
kept by the generic stream layer, the private state, and which operations
are installed. -/
structure stream_t where
  path : CStr
  pos : Int
  seekable : Bool
  priv : priv
  fill_buffer : Bool
  seek : Bool
  close : Bool
  control : Bool

/-- The name `fn` that `reopen_archive` compares: the pathname, or the
placeholder `snprintf(buf, 64, "mpv_unknown#%d\n", num_files)`. -/
def display_name (e : archive_entry) (num_files : Nat) : CStr :=
  match e.pathname with
  | some fn => fn
  | none => ("mpv_unknown#".toList ++ Nat.toDigits 10 num_files ++ ['\n']).take 63

/-- The `for (;;)` loop of `reopen_archive` over the header answers still to
come: the recorded size and the session positioned on the entry, or none
where the source jumps to `error`. -/
def scan_loop (entry_name : CStr) (a : archive) : List header → Nat → Option (Int × archive)
  | [], _ => none
  | h :: rest, num_files =>
    let a1 : archive := { a with headers := rest, entry := some h.entry, consumed := 0 }
    if h.r = ARCHIVE_EOF then none
    else if h.r < ARCHIVE_WARN then none
    else if h.entry.filetype ≠ AE_IFREG then scan_loop entry_name a1 rest num_files
    else if entry_name = display_name h.entry num_files then
      some (if let some n := h.entry.size then n else -1, a1)
    else scan_loop entry_name a1 rest (num_files + 1)

/-- The function `reopen_archive`. A null `src` is never passed by the
callers; the source would dereference it. -/
def reopen_archive (env : Env) (s : stream_t) : Int × stream_t :=
  match s.priv.src with
  | none => (STREAM_ERROR, s)
  | some src =>
    match (mp_archive_new env src MP_ARCHIVE_FLAG_UNSAFE).1 with
    | none => (STREAM_ERROR, { s with priv := { s.priv with mpa := none } })
    | some mpa =>
      match scan_loop s.priv.entry_name mpa.arch mpa.arch.headers 0 with
      | some found =>
        (STREAM_OK, { s with priv := { s.priv with mpa := some { arch := found.2 },
                                                   entry_size := found.1 } })
      | none => (STREAM_ERROR, { s with priv := { s.priv with mpa := none } })

/-- The function `archive_entry_fill_buffer`. -/
def archive_entry_fill_buffer (s : stream_t) (max_len : Nat) : Int × stream_t :=
  match s.priv.mpa with
  | none => (0, s)
  | some mpa =>
    let res := archive_read_data mpa.arch max_len
    (res.1, { s with priv := { s.priv with mpa := some { arch := res.2 } } })

/-- The read-and-discard loop of `archive_entry_seek` with its `return 1`;
the fuel bounds the number of iterations, none means the loop is still
running when the fuel is spent. -/
def seek_forward : Nat → stream_t → Int → Option (Int × stream_t)
  | 0, s, newpos => if newpos > s.pos then none else some (1, s)
  | fuel + 1, s, newpos =>
    if newpos > s.pos then
      match s.priv.mpa with
      | none => some (-1, s)
      | some mpa =>
        let size := min (newpos - s.pos) 4096
        let res := archive_read_data mpa.arch size.toNat
        let s1 : stream_t := { s with priv := { s.priv with mpa := some { arch := res.2 } } }
        if res.1 < 0 then some (-1, s1)
        else seek_forward fuel { s1 with pos := s.pos + res.1 } newpos
    else some (1, s)

/-- The function `archive_entry_seek`. -/
def archive_entry_seek (env : Env) (fuel : Nat) (s : stream_t) (newpos : Int) :
    Option (Int × stream_t) :=
  match s.priv.mpa with
  | none => some (-1, s)
  | some mpa =>
    let sk := archive_seek_data mpa.arch newpos
    let s1 : stream_t := { s with priv := { s.priv with mpa := some { arch := sk.2 } } }
    if sk.1 ≥ 0 then some (1, s1)
    else if newpos < s1.pos then
      let r := reopen_archive env s1
      if r.1 < STREAM_OK then some (-1, r.2)
      else seek_forward fuel { r.2 with pos := 0 } newpos
    else seek_forward fuel s1 newpos

/-- The function `archive_entry_close`: the handle is torn down; releasing
the primary stream is not tracked. -/
def archive_entry_close (s : stream_t) : stream_t :=
  { s with priv := { s.priv with mpa := none } }

/-- The function `archive_entry_open`. -/
def archive_entry_open (env : Env) (stream : stream_t) : Int × stream_t :=
  let p0 : priv := { mpa := none, src := none, entry_size := 0, entry_name := [] }
  if '|' ∈ stream.path then
    let base := stream.path.takeWhile (fun c => c != '|')
    let name := (stream.path.dropWhile (fun c => c != '|')).drop 1
    let p1 : priv := { p0 with entry_name := name,
                               src := env.stream_create (env.mp_url_unescape base) true }
    match p1.src with
    | none => (STREAM_ERROR, archive_entry_close { stream with priv := p1 })
    | some src =>
      let r := reopen_archive env { stream with priv := p1 }
      if r.1 < STREAM_OK then (r.1, archive_entry_close r.2)
      else
        (STREAM_OK, { r.2 with fill_buffer := true,
                               seek := r.2.seek || src.seekable,
                               seekable := r.2.seekable || src.seekable,
                               close := true, control := true })
  else (STREAM_ERROR, { stream with priv := p0 })

/-- A step in the later life of an entry stream: a read, a seek, or the
generic stream layer moving the logical position. -/
inductive Op where
  | fill (max_len : Nat)
  | seek (env : Env) (fuel : Nat) (newpos : Int)
  | set_pos (pos : Int)

/-- Whether a step is a read. -/
def Op.is_fill : Op → Bool
  | Op.fill _ => true
  | _ => false

/-- The results of the `archive_entry_fill_buffer` calls of a sequence of
steps, in order; none when a seek is still running at the end of its fuel. -/
def run_ops : stream_t → List Op → Option (List Int)
  | _, [] => some []
  | s, Op.fill max_len :: ops =>
    let res := archive_entry_fill_buffer s max_len
    (run_ops res.2 ops).map (fun rs => res.1 :: rs)
  | s, Op.seek env fuel newpos :: ops =>
    match archive_entry_seek env fuel s newpos with
    | none => none
    | some res => run_ops res.2 ops
  | s, Op.set_pos pos :: ops => run_ops { s with pos := pos } ops

/-- The state obtained from a freshly opened entry stream `f` by reading and
discarding `n` bytes: the data reader has delivered exactly `n` bytes of the
entry and the logical position is `n`. -/
def replay (f : stream_t) (n : Nat) : stream_t :=
  { f with
    pos := n,
    priv := { f.priv with
      mpa := f.priv.mpa.map (fun m => { arch := { m.arch with consumed := n } }) } }

/-- The number of regular-file entries among the first `k` headers. -/
def regular_before (hs : List header) (k : Nat) : Nat :=
  ((hs.take k).filter (fun h => decide (h.entry.filetype = AE_IFREG))).length

/-- The scan, taken in encounter order, reaches at index `k` a regular-file
entry whose display name equals the requested name before it reaches the
end of entries or a header result below warning severity. The display name
of an entry without pathname is derived from its ordinal among the regular
entries, counted from `first_ordinal`. -/
def reaches_match (name : CStr) (first_ordinal : Nat) (hs : List header) (k : Nat) : Prop :=
  ∃ h, hs[k]? = some h ∧ h.entry.filetype = AE_IFREG
    ∧ name = display_name h.entry (first_ordinal + regular_before hs k)
    ∧ ∀ j hj, j ≤ k → hs[j]? = some hj → hj.r ≠ ARCHIVE_EOF ∧ ¬ hj.r < ARCHIVE_WARN

/-- The longest initial run of candidate addresses that all open. -/
def opened_run (env : Env) (candidates : List CStr) : List CStr :=
  candidates.takeWhile (fun u => (env.stream_create u false).isSome)

/-- One stream-owning volume, over the rewound sibling stream, for each
address of a run. -/
def owned_volumes (env : Env) (run : List CStr) : List mp_archive_volume :=
  run.filterMap (fun u =>
    (env.stream_create u false).map
      (fun st => { src := (env.stream_seek st 0).2, own_stream := true }))

/-- The primary stream as a volume that does not own it. -/
def primary_volume (env : Env) (src : stream) : mp_archive_volume :=
  { src := (env.stream_seek src 0).2, own_stream := false }

/-- The six formats of a handle built with the unsafe flag. -/
def unsafe_formats : List Format :=
  [Format.sevenzip, Format.iso9660, Format.rar, Format.zip, Format.gnutar, Format.tar]

/-! ## Sample inputs -/

/-- File type of a directory (archive_entry.h). -/
def AE_IFDIR : Nat := 0o040000

/-- A regular entry `a.mkv` with ten bytes of data and no native seek: a
read delivers the bytes asked for, as far as they exist, and 0 at the end. -/
def sample_file : archive_entry :=
  { filetype := AE_IFREG, pathname := some "a.mkv".toList, size := some 10,
    read_result := fun c n => ((min n (10 - c) : Nat) : Int),
    seek_result := fun _ => ARCHIVE_FAILED }

/-- A directory that carries the same pathname as `sample_file`. -/
def sample_dir : archive_entry :=
  { filetype := AE_IFDIR, pathname := some "a.mkv".toList, size := none,
    read_result := fun _ _ => 0, seek_result := fun _ => ARCHIVE_FAILED }

/-- A regular entry whose name contains the separator character. -/
def sample_bar_file : archive_entry :=
  { filetype := AE_IFREG, pathname := some "b|c".toList, size := none,
    read_result := fun c n => ((min n (10 - c) : Nat) : Int),
    seek_result := fun _ => ARCHIVE_FAILED }

/-- A stream layer in which exactly the listed addresses open, seeking to a
non-negative position succeeds, and every size is 100; a decoder that
accepts everything and yields the given headers. -/
def sample_env (addresses : List CStr) (headers : List header) : Env :=
  { stream_create := fun u _ =>
      if u ∈ addresses then some { url := u, pos := 7, seekable := true } else none,
    stream_seek := fun s p => if 0 ≤ p then (true, { s with pos := p }) else (false, s),
    stream_tell := fun s => s.pos,
    stream_get_size := fun _ => 100,
    mp_url_unescape := fun u => u,
    archive_read_new_ok := true,
    archive_read_append_callback_data := fun _ => ARCHIVE_OK,
    archive_read_open1 := ARCHIVE_OK,
    headers := headers }

/-- The archive `disk.zip` holding a directory and then a file, both named
`a.mkv`. -/
def disk_env : Env :=
  sample_env ["disk.zip".toList] [⟨ARCHIVE_OK, sample_dir⟩, ⟨ARCHIVE_WARN, sample_file⟩]

/-- An archive `a` holding an entry named `b|c`; the address `a|b` opens
as well. -/
def bar_env : Env :=
  sample_env ["a".toList, "a|b".toList] [⟨ARCHIVE_OK, sample_bar_file⟩]

/-- An entry stream object before `archive_entry_open` ran. -/
def unopened (path : CStr) : stream_t :=
  { path := path, pos := 0, seekable := false,
    priv := { mpa := none, src := none, entry_size := 0, entry_name := [] },
    fill_buffer := false, seek := false, close := false, control := false }

/-- A volume over a stream at position 40. -/
def sample_volume : mp_archive_volume :=
  { src := { url := "disk.zip".toList, pos := 40, seekable := true }, own_stream := false }

/-- The entry stream left by opening `disk.zip|a.mkv`. -/
def disk_opened : stream_t :=
  (archive_entry_open disk_env (unopened "disk.zip|a.mkv".toList)).2

/-- The handle of `disk_opened`: positioned on the file `a.mkv`, nothing
read yet. -/
def disk_handle : mp_archive :=
  { arch :=
      { dataset := [{ src := { url := "disk.zip".toList, pos := 0, seekable := true },
                      own_stream := false }],
        formats := unsafe_formats,
        filters := [Filter.bzip2, Filter.gzip, Filter.xz],
        callbacks := [Callback.read, Callback.skip, Callback.switch, Callback.close,
                      Callback.seek],
        headers := [], entry := some sample_file, consumed := 0 } }

/-- The handle that `mp_archive_new` builds over `disk.zip`, before any
header is read. -/
def disk_new_handle : mp_archive :=
  { arch := { disk_handle.arch with headers := disk_env.headers, entry := none } }

/-- A later state of the world in which `disk.zip` no longer contains any
entry. -/
def emptied_env : Env := sample_env ["disk.zip".toList] []

/-- A split archive of which the parts 1, 2, 3 and 5 exist, part 4 is
missing. -/
def parts_env : Env :=
  sample_env ["x.part1.rar".toList, "x.part2.rar".toList, "x.part3.rar".toList,
              "x.part5.rar".toList] []

/-- The primary stream of the split archive. -/
def parts_primary : stream := { url := "x.part1.rar".toList, pos := 7, seekable := true }

/-! ## Formatting lemmas -/

/-- The decimal digits of a number below ten. -/
theorem toDigits_one (i : Nat) (h : i < 10) : Nat.toDigits 10 i = [Nat.digitChar i] := by
  unfold Nat.toDigits
  rw [Nat.toDigitsCore]
  have h0 : i / 10 = 0 := by omega
  have h1 : i % 10 = i := by omega
  simp [h0, h1]

/-- The decimal digits of a number from ten to ninety-nine. -/
theorem toDigits_two (i : Nat) (h : 10 ≤ i) (h2 : i < 100) :
    Nat.toDigits 10 i = [Nat.digitChar (i / 10), Nat.digitChar (i % 10)] := by
  obtain ⟨m, rfl⟩ : ∃ m, i = m + 1 := ⟨i - 1, by omega⟩
  unfold Nat.toDigits
  rw [Nat.toDigitsCore, Nat.toDigitsCore]
  have h0 : (m + 1) / 10 ≠ 0 := by omega
  have h1 : (m + 1) / 10 / 10 = 0 := by omega
  have h3 : (m + 1) / 10 % 10 = (m + 1) / 10 := by omega
  simp [h0, h1, h3]

/-- The decimal digits of a number from one hundred to 999. -/
theorem toDigits_three (i : Nat) (h : 100 ≤ i) (h2 : i < 1000) :
    Nat.toDigits 10 i
      = [Nat.digitChar (i / 100), Nat.digitChar (i / 10 % 10), Nat.digitChar (i % 10)] := by
  obtain ⟨m, rfl⟩ : ∃ m, i = m + 2 := ⟨i - 2, by omega⟩
  unfold Nat.toDigits
  rw [Nat.toDigitsCore, Nat.toDigitsCore, Nat.toDigitsCore]
  have h0 : (m + 2) / 10 ≠ 0 := by omega
  have h1 : (m + 2) / 100 ≠ 0 := by omega
  have h4 : (m + 2) / 100 / 10 = 0 := by omega
  have h3 : (m + 2) / 100 % 10 = (m + 2) / 100 := by omega
  simp [h0, h1, h3, h4, Nat.div_div_eq_div_mul]

/-- The conversion `%.1d` of an index below ten is its digit. -/
theorem fmt_d_one (i : Nat) (h : i < 10) : fmt_d 1 i = [Nat.digitChar i] := by
  simp [fmt_d, toDigits_one i h]

/-- The conversion `%.2d` of an index below one hundred is its two digits. -/
theorem fmt_d_two (i : Nat) (h : i < 100) :
    fmt_d 2 i = [Nat.digitChar (i / 10), Nat.digitChar (i % 10)] := by
  by_cases h10 : i < 10
  · have h0 : i / 10 = 0 := by omega
    have h1 : i % 10 = i := by omega
    simp [fmt_d, toDigits_one i h10, h0, h1, List.replicate]
    rfl
  · simp [fmt_d, toDigits_two i (by omega) h]

/-- The conversion `%.3d` of an index below one thousand is its three digits. -/
theorem fmt_d_three (i : Nat) (h : i < 1000) :
    fmt_d 3 i
      = [Nat.digitChar (i / 100), Nat.digitChar (i / 10 % 10), Nat.digitChar (i % 10)] := by
  by_cases h10 : i < 10
  · have h0 : i / 100 = 0 := by omega
    have h1 : i / 10 % 10 = 0 := by omega
    have h2 : i % 10 = i := by omega
    simp [fmt_d, toDigits_one i h10, h0, h1, h2, List.replicate]
    rfl
  · by_cases h100 : i < 100
    · have h0 : i / 100 = 0 := by omega
      have h1 : i / 10 % 10 = i / 10 := by omega
      simp [fmt_d, toDigits_two i (by omega) h100, h0, h1, List.replicate]
      rfl
    · simp [fmt_d, toDigits_three i (by omega) h]

/-! ## Volume pattern matcher: generated addresses -/

/-- The candidates of a primary address ending in .part1.rar. -/
theorem candidates_part1 (x : CStr) :
    volume_candidates (x ++ ".part1.rar".toList)
      = (List.range' 2 8).map
          (fun i => x ++ ".part".toList ++ [Nat.digitChar i] ++ ".rar".toList) := by
  simp only [volume_candidates, find_volume_pattern, find_in, patterns, volume_base]
  simp
  intro i hi hi2
  simp [file_pattern.url, standard_volume_url, talloc_asprintf, fmt_d_one i (by omega)]

/-- The candidates of a primary address ending in .part01.rar. -/
theorem candidates_part01 (x : CStr) :
    volume_candidates (x ++ ".part01.rar".toList)
      = (List.range' 2 98).map
          (fun i => x ++ ".part".toList ++ [Nat.digitChar (i / 10), Nat.digitChar (i % 10)]
            ++ ".rar".toList) := by
  simp only [volume_candidates, find_volume_pattern, find_in, patterns, volume_base]
  simp
  intro i hi hi2
  simp [file_pattern.url, standard_volume_url, talloc_asprintf, fmt_d_two i (by omega)]

/-- The candidates of a primary address ending in .part001.rar. -/
theorem candidates_part001 (x : CStr) :
    volume_candidates (x ++ ".part001.rar".toList)
      = (List.range' 2 998).map
          (fun i => x ++ ".part".toList
            ++ [Nat.digitChar (i / 100), Nat.digitChar (i / 10 % 10), Nat.digitChar (i % 10)]
            ++ ".rar".toList) := by
  simp only [volume_candidates, find_volume_pattern, find_in, patterns, volume_base]
  simp
  intro i hi hi2
  simp [file_pattern.url, standard_volume_url, talloc_asprintf, fmt_d_three i (by omega)]

/-- A table entry whose suffix ends the location is returned by the loop of
`find_volume_pattern`. -/
theorem find_in_hit (l : CStr) (p : file_pattern) (ps : List file_pattern)
    (h : p.«match» <:+ l) : find_in l (p :: ps) = some p := by
  have hlen : ¬ l.length < p.«match».length := by
    have := h.length_le; omega
  have hd : l.drop (l.length - p.«match».length) = p.«match» :=
    (List.suffix_iff_eq_drop.mp h).symm
  simp [find_in, hlen, hd]

/-- A table entry whose suffix does not end the location is passed over. -/
theorem find_in_miss (l : CStr) (p : file_pattern) (ps : List file_pattern)
    (h : ¬ p.«match» <:+ l) : find_in l (p :: ps) = find_in l ps := by
  have hd : l.drop (l.length - p.«match».length) ≠ p.«match» := by
    intro e
    exact h (List.suffix_iff_eq_drop.mpr e.symm)
  simp [find_in, hd]

/-- C3: for every stem x the primary address x.part1.rar generates exactly
the eight sibling addresses x.part2.rar to x.part9.rar in this order, chosen
by the .part1.rar table entry although the .rar entry matches as well;
x.part01.rar generates x.part02.rar to x.part99.rar and x.part001.rar
generates x.part002.rar to x.part999.rar, each candidate being the stem
followed by .part, the index zero-padded to the digit width of the primary,
and .rar, for every index from 2 to the upper bound of the pattern. -/
theorem part_volume_candidates (x : CStr) :
    (find_volume_pattern (x ++ ".part1.rar".toList) = patterns[0]?
      ∧ ".rar".toList <:+ x ++ ".part1.rar".toList
      ∧ volume_candidates (x ++ ".part1.rar".toList)
        = [x ++ ".part2.rar".toList, x ++ ".part3.rar".toList, x ++ ".part4.rar".toList,
           x ++ ".part5.rar".toList, x ++ ".part6.rar".toList, x ++ ".part7.rar".toList,
           x ++ ".part8.rar".toList, x ++ ".part9.rar".toList])
    ∧ volume_candidates (x ++ ".part01.rar".toList)
        = (List.range' 2 98).map
            (fun i => x ++ ".part".toList ++ [Nat.digitChar (i / 10), Nat.digitChar (i % 10)]
              ++ ".rar".toList)
    ∧ volume_candidates (x ++ ".part001.rar".toList)
        = (List.range' 2 998).map
            (fun i => x ++ ".part".toList
              ++ [Nat.digitChar (i / 100), Nat.digitChar (i / 10 % 10), Nat.digitChar (i % 10)]
              ++ ".rar".toList) := by
  refine ⟨⟨?_, ?_, ?_⟩, candidates_part01 x, candidates_part001 x⟩
  · simp [find_volume_pattern, find_in, patterns]
  · exact ⟨x ++ ".part1".toList, by simp⟩
  · rw [candidates_part1]
    simp [List.range']
    decide

/-- When none of the three numbered suffixes ends an address ending in
.rar, the legacy table entry is selected. -/
theorem find_old_rar (x : CStr)
    (h1 : ¬ ".part1.rar".toList <:+ x ++ ".rar".toList)
    (h2 : ¬ ".part01.rar".toList <:+ x ++ ".rar".toList)
    (h3 : ¬ ".part001.rar".toList <:+ x ++ ".rar".toList) :
    find_volume_pattern (x ++ ".rar".toList) = patterns[3]? := by
  unfold find_volume_pattern patterns
  rw [find_in_miss _ _ _ h1, find_in_miss _ _ _ h2, find_in_miss _ _ _ h3]
  simp [find_in]

/-- C4: for an address x.rar that ends in none of .part1.rar, .part01.rar,
.part001.rar, the legacy pattern generates 1000 candidates, and for every
index i from 0 to 999 the i-th one is x, a dot, the character with code
'r' + i / 100, and i mod 100 as two decimal digits. -/
theorem old_rar_volume_candidates (x : CStr) (i : Nat) (hi : i ≤ 999)
    (h1 : ¬ ".part1.rar".toList <:+ x ++ ".rar".toList)
    (h2 : ¬ ".part01.rar".toList <:+ x ++ ".rar".toList)
    (h3 : ¬ ".part001.rar".toList <:+ x ++ ".rar".toList) :
    (volume_candidates (x ++ ".rar".toList)).length = 1000
    ∧ (volume_candidates (x ++ ".rar".toList))[i]?
        = some (x ++ ['.', Char.ofNat ('r'.toNat + i / 100),
                      Nat.digitChar (i % 100 / 10), Nat.digitChar (i % 100 % 10)]) := by
  have hp := find_old_rar x h1 h2 h3
  simp only [patterns, List.getElem?_cons_succ, List.getElem?_cons_zero] at hp
  have hlt : i < 1000 := by omega
  have hc : (114 + i / 100) % 256 = 114 + i / 100 := by omega
  unfold volume_candidates
  rw [hp]
  constructor
  · simp
  · simp [volume_base, hlt, file_pattern.url, old_rar_volume_url,
      talloc_asprintf, fmt_c, hc, fmt_d_two (i % 100) (Nat.mod_lt _ (by decide))]

/-- The address x.rar at index 100 rolls the letter over: x.s00. -/
theorem old_rar_volume_candidates_witness :
    (volume_candidates "x.rar".toList).length = 1000
    ∧ (volume_candidates "x.rar".toList)[100]? = some "x.s00".toList :=
  old_rar_volume_candidates "x".toList 100 (by decide) (by decide) (by decide) (by decide)

/-! ## The seek callback -/

/-- Sums inside the `int64_t` range are not changed by wrapping. -/
theorem wrap64_id (x : Int) (h1 : -2 ^ 63 ≤ x) (h2 : x < 2 ^ 63) : wrap64 x = x := by
  unfold wrap64
  norm_num at h1 h2 ⊢
  omega

/-- C9: with no overflow in the sum, `seek_cb` targets the offset for an
absolute origin, offset plus the position field of the stream for an origin
relative to the current position, and offset plus the size for an origin
relative to the end. It returns -1 and leaves the volume alone when the
origin is relative to the end and the size is negative, or when the origin
is none of the three; otherwise it seeks the stream to the target and
returns the position the stream reports afterwards if the seek is accepted
and -1 if it is rejected. -/
theorem seek_cb_spec (env : Env) (vol : mp_archive_volume) (offset whence : Int)
    (hcur : whence = SEEK_CUR →
      -2 ^ 63 ≤ offset + vol.src.pos ∧ offset + vol.src.pos < 2 ^ 63)
    (hend : whence = SEEK_END → 0 ≤ env.stream_get_size vol.src →
      -2 ^ 63 ≤ offset + env.stream_get_size vol.src
        ∧ offset + env.stream_get_size vol.src < 2 ^ 63) :
    seek_cb env vol offset whence =
      if (whence = SEEK_END ∧ env.stream_get_size vol.src < 0)
          ∨ (whence ≠ SEEK_SET ∧ whence ≠ SEEK_CUR ∧ whence ≠ SEEK_END) then (-1, vol)
      else
        let target :=
          if whence = SEEK_SET then offset
          else if whence = SEEK_CUR then offset + vol.src.pos
          else offset + env.stream_get_size vol.src
        let res := env.stream_seek vol.src target
        (if res.1 then env.stream_tell res.2 else -1, { vol with src := res.2 }) := by
  unfold seek_cb
  by_cases h0 : whence = SEEK_SET
  · subst h0
    simp [SEEK_SET, SEEK_CUR, SEEK_END, seek_to]
  · by_cases h1 : whence = SEEK_CUR
    · have hw := hcur h1
      subst h1
      simp [SEEK_SET, SEEK_CUR, SEEK_END, seek_to, wrap64_id _ hw.1 hw.2]
    · by_cases h2 : whence = SEEK_END
      · have h20 : SEEK_END ≠ SEEK_SET := by decide
        have h21 : SEEK_END ≠ SEEK_CUR := by decide
        by_cases hs : env.stream_get_size vol.src < 0
        · simp [h2, h20, h21, hs]
        · have hw := hend h2 (by omega)
          subst h2
          simp [h20, h21, hs, seek_to, wrap64_id _ hw.1 hw.2]
      · simp [h0, h1, h2]

/-- A seek of -10 relative to the current position 40 lands on 30. -/
theorem seek_cb_spec_witness :
    seek_cb disk_env sample_volume (-10) SEEK_CUR
      = (30, { sample_volume with src := { sample_volume.src with pos := 30 } }) := by
  have h := seek_cb_spec disk_env sample_volume (-10) SEEK_CUR
    (fun _ => by decide) (fun h => absurd h (by decide))
  rw [h]
  decide

/-! ## Opening an entry stream -/

/-- The characters before the first separator. -/
theorem takeWhile_bar (left right : CStr) (h : '|' ∉ left) :
    (left ++ '|' :: right).takeWhile (fun c => c != '|') = left := by
  induction left with
  | nil => simp
  | cons c cs ih =>
    have hc : c ≠ '|' := fun e => h (by simp [e])
    have hcs : '|' ∉ cs := fun e => h (by simp [e])
    have hb : (c != '|') = true := by simp [hc]
    simp [List.takeWhile, hb, ih hcs]

/-- The characters from the first separator on. -/
theorem dropWhile_bar (left right : CStr) (h : '|' ∉ left) :
    (left ++ '|' :: right).dropWhile (fun c => c != '|') = '|' :: right := by
  induction left with
  | nil => simp
  | cons c cs ih =>
    have hc : c ≠ '|' := fun e => h (by simp [e])
    have hcs : '|' ∉ cs := fun e => h (by simp [e])
    have hb : (c != '|') = true := by simp [hc]
    simp [List.dropWhile, hb, ih hcs]

/-- The function `reopen_archive` changes nothing but the handle and the
recorded size. -/
theorem reopen_archive_frame (env : Env) (s : stream_t) :
    (reopen_archive env s).2.priv.src = s.priv.src
    ∧ (reopen_archive env s).2.priv.entry_name = s.priv.entry_name
    ∧ (reopen_archive env s).2.path = s.path
    ∧ (reopen_archive env s).2.pos = s.pos := by
  unfold reopen_archive
  split
  · simp
  · split
    · simp
    · split <;> simp

/-- Every path that contains a separator has a first one. -/
theorem first_bar_exists (path : CStr) (h : '|' ∈ path) :
    ∃ left right, path = left ++ '|' :: right ∧ '|' ∉ left :=
  List.eq_append_cons_of_mem h

/-- C6, as the code has it: a path that contains a separator is split at
its first '|'. The text before the first '|' is unescaped and handed to
`stream_create` as the primary address, and everything after the first '|',
further separators included, is the entry name, taken verbatim. -/
theorem open_splits_at_first_bar (env : Env) (stream : stream_t) (left right : CStr)
    (hpath : stream.path = left ++ '|' :: right) (hleft : '|' ∉ left) :
    (archive_entry_open env stream).2.priv.entry_name = right
    ∧ (archive_entry_open env stream).2.priv.src
        = env.stream_create (env.mp_url_unescape left) true := by
  have hmem : '|' ∈ left ++ '|' :: right := by simp
  unfold archive_entry_open
  simp only [hpath, hmem, if_true, takeWhile_bar left right hleft,
    dropWhile_bar left right hleft, List.drop_succ_cons, List.drop_zero]
  cases hsrc : env.stream_create (env.mp_url_unescape left) true with
  | none => simp [archive_entry_close]
  | some src =>
    simp only
    split
    · simp [archive_entry_close, reopen_archive_frame]
    · simp [reopen_archive_frame]

/-- The path `a|b|c` resolves the entry `b|c` inside the archive `a`. -/
theorem open_splits_at_first_bar_witness :
    (archive_entry_open bar_env (unopened "a|b|c".toList)).2.priv.entry_name = "b|c".toList
    ∧ (archive_entry_open bar_env (unopened "a|b|c".toList)).2.priv.src
        = bar_env.stream_create (bar_env.mp_url_unescape "a".toList) true :=
  open_splits_at_first_bar bar_env (unopened "a|b|c".toList) "a".toList "b|c".toList
    (by decide) (by decide)

/-- C6 as stated fails: on the path `a|b|c` the open succeeds, the entry
name is `b|c` and not the text `c` after the final '|', and the primary
stream is the one at address `a`, not the one at `a|b`. -/
theorem final_bar_split_refuted :
    (archive_entry_open bar_env (unopened "a|b|c".toList)).1 = STREAM_OK
    ∧ (archive_entry_open bar_env (unopened "a|b|c".toList)).2.priv.entry_name ≠ "c".toList
    ∧ (archive_entry_open bar_env (unopened "a|b|c".toList)).2.priv.src
        ≠ bar_env.stream_create (bar_env.mp_url_unescape "a|b".toList) true := by
  decide

/-! ## Registered formats -/

/-- Attaching a volume registers no format. -/
theorem add_volume_formats (env : Env) (a : archive) (st : stream) (own : Bool) :
    (add_volume env a st own).2.formats = a.formats := by
  unfold add_volume
  split <;> rfl

/-- Probing volumes registers no format. -/
theorem open_volumes_formats (env : Env) (pattern : file_pattern) (base : CStr) (fuel : Nat) :
    ∀ (i : Nat) (a : archive) (tried : List CStr) (a2 : archive),
      (open_volumes env pattern base fuel i a tried).1 = some a2 → a2.formats = a.formats := by
  induction fuel with
  | zero =>
    intro i a tried a2 h
    simp [open_volumes] at h
    rw [← h]
  | succ n ih =>
    intro i a tried a2 h
    by_cases hi : i ≤ pattern.stop
    · cases hc : env.stream_create (pattern.url base i) false with
      | none =>
        simp [open_volumes, hi, hc] at h
        rw [← h]
      | some st =>
        by_cases hv : (add_volume env a st true).1 = true
        · simp only [open_volumes, hi, hc, hv, if_true] at h
          rw [ih _ _ _ _ h, add_volume_formats]
        · simp [open_volumes, hi, hc, hv] at h
    · simp [open_volumes, hi] at h
      rw [← h]

/-- The formats of a handle that `mp_archive_new` returns: the four fixed
ones, followed by gnutar and tar exactly when the unsafe flag is set. -/
theorem mp_archive_new_formats (env : Env) (src : stream) (flags : Nat) (mpa : mp_archive)
    (h : (mp_archive_new env src flags).1 = some mpa) :
    mpa.arch.formats
      = [Format.sevenzip, Format.iso9660, Format.rar, Format.zip]
        ++ (if flags &&& MP_ARCHIVE_FLAG_UNSAFE ≠ 0 then [Format.gnutar, Format.tar] else []) := by
  unfold mp_archive_new at h
  cases hnew : archive_read_new env with
  | none => simp [hnew] at h
  | some a0 =>
    have ha0 : a0.formats = [] := by
      unfold archive_read_new at hnew
      split at hnew
      · simp at hnew
        rw [← hnew]
      · simp at hnew
    simp only [hnew] at h
    split at h
    · cases hp : (probe_volumes env src (add_volume env a0 src false).2).1 with
      | none => simp [hp] at h
      | some a2 =>
        have ha2 : a2.formats = [] := by
          unfold probe_volumes at hp
          split at hp
          · simp at hp
            rw [← hp, add_volume_formats, ha0]
          · rw [open_volumes_formats _ _ _ _ _ _ _ _ hp, add_volume_formats, ha0]
        simp only [hp] at h
        split at h
        · simp at h
        · simp at h
          rw [← h]
          unfold install_callbacks register_formats
          split <;> split <;> simp_all
    · simp at h

/-- Scanning headers registers no format. -/
theorem scan_loop_formats (name : CStr) (hs : List header) :
    ∀ (a : archive) (n : Nat) (found : Int × archive),
      scan_loop name a hs n = some found → found.2.formats = a.formats := by
  induction hs with
  | nil => intro a n found h; simp [scan_loop] at h
  | cons hd rest ih =>
    intro a n found h
    unfold scan_loop at h
    simp only at h
    split at h
    · simp at h
    · split at h
      · simp at h
      · split at h
        · have h2 := ih _ _ _ h
          exact h2
        · split at h
          · simp at h
            rw [← h]
          · have h2 := ih _ _ _ h
            exact h2

/-- A reopen that does not fail leaves a handle with the tar formats
registered. -/
theorem reopen_archive_formats (env : Env) (s : stream_t)
    (h : ¬ (reopen_archive env s).1 < STREAM_OK) :
    ∃ mpa, (reopen_archive env s).2.priv.mpa = some mpa
      ∧ mpa.arch.formats = unsafe_formats := by
  unfold reopen_archive at h ⊢
  cases hsrc : s.priv.src with
  | none => simp [hsrc, STREAM_ERROR, STREAM_OK] at h
  | some src =>
    simp only [hsrc] at h ⊢
    cases hn : (mp_archive_new env src MP_ARCHIVE_FLAG_UNSAFE).1 with
    | none => simp [hn, STREAM_ERROR, STREAM_OK] at h
    | some mpa =>
      simp only [hn] at h ⊢
      cases hsc : scan_loop s.priv.entry_name mpa.arch mpa.arch.headers 0 with
      | none => simp [hsc, STREAM_ERROR, STREAM_OK] at h
      | some found =>
        refine ⟨{ arch := found.2 }, rfl, ?_⟩
        simp only
        rw [scan_loop_formats _ _ _ _ _ hsc, mp_archive_new_formats env src _ mpa hn]
        decide

/-- The read-and-discard loop keeps the handle and its formats. -/
theorem seek_forward_formats (fuel : Nat) :
    ∀ (s t : stream_t) (newpos r : Int) (mpa : mp_archive),
      s.priv.mpa = some mpa → seek_forward fuel s newpos = some (r, t) →
      ∃ mpa2, t.priv.mpa = some mpa2 ∧ mpa2.arch.formats = mpa.arch.formats := by
  induction fuel with
  | zero =>
    intro s t newpos r mpa hm h
    unfold seek_forward at h
    split at h
    · simp at h
    · simp at h
      exact ⟨mpa, by rw [← h.2]; exact hm, rfl⟩
  | succ n ih =>
    intro s t newpos r mpa hm h
    unfold seek_forward at h
    split at h
    · simp only [hm] at h
      have hf : (archive_read_data mpa.arch (min (newpos - s.pos) 4096).toNat).2.formats
          = mpa.arch.formats := by
        unfold archive_read_data
        split
        · rfl
        · simp only
          split <;> rfl
      split at h
      · simp at h
        exact ⟨_, by rw [← h.2], hf⟩
      · obtain ⟨m2, h1, h2⟩ := ih _ _ _ _ _ rfl h
        exact ⟨m2, h1, by rw [h2]; exact hf⟩
    · simp at h
      exact ⟨mpa, by rw [← h.2]; exact hm, rfl⟩

/-- A successful `archive_entry_open` ends with the state of a reopen that
did not fail. -/
theorem archive_entry_open_ok (env : Env) (stream s2 : stream_t)
    (h : archive_entry_open env stream = (STREAM_OK, s2)) :
    ∃ s0 : stream_t, ¬ (reopen_archive env s0).1 < STREAM_OK
      ∧ s2.priv = (reopen_archive env s0).2.priv := by
  unfold archive_entry_open at h
  simp only at h
  split at h
  · split at h
    · simp [STREAM_ERROR, STREAM_OK] at h
    · split at h
      · rename_i hlt
        simp only [Prod.mk.injEq] at h
        rw [h.1] at hlt
        exact absurd hlt (by decide)
      · rename_i hge
        simp only [Prod.mk.injEq] at h
        exact ⟨_, hge, by rw [← h.2]⟩
  · simp [STREAM_ERROR, STREAM_OK] at h

/-- C8, as the code has it: the unsafe flag is on for every handle of an
entry stream. The very first open goes through `reopen_archive` as well, so
the handle left by a successful `archive_entry_open` has gnutar and tar
registered, exactly like the handle left by a successful backward seek that
had to reopen. -/
theorem unsafe_formats_on_every_open (env : Env) (stream s2 : stream_t)
    (h : archive_entry_open env stream = (STREAM_OK, s2)) :
    (∃ mpa, s2.priv.mpa = some mpa ∧ mpa.arch.formats = unsafe_formats)
    ∧ ∀ (env2 : Env) (fuel : Nat) (s t : stream_t) (newpos : Int) (mpa : mp_archive),
        s.priv.mpa = some mpa → (archive_seek_data mpa.arch newpos).1 < 0 → newpos < s.pos →
        archive_entry_seek env2 fuel s newpos = some (1, t) →
        ∃ mpa2, t.priv.mpa = some mpa2 ∧ mpa2.arch.formats = unsafe_formats := by
  constructor
  · obtain ⟨s0, hge, hp⟩ := archive_entry_open_ok env stream s2 h
    obtain ⟨mpa, h1, h2⟩ := reopen_archive_formats env s0 hge
    exact ⟨mpa, by rw [hp, h1], h2⟩
  · intro env2 fuel s t newpos mpa hm hnat hback hseek
    unfold archive_entry_seek at hseek
    simp only [hm] at hseek
    have hn : ¬ (archive_seek_data mpa.arch newpos).1 ≥ 0 := by omega
    simp only [hn, if_false, hback, if_true] at hseek
    split at hseek
    · simp at hseek
    · rename_i hge
      obtain ⟨m1, h1, h2⟩ := reopen_archive_formats env2 _ hge
      obtain ⟨m2, h3, h4⟩ := seek_forward_formats fuel _ t newpos 1 m1 (by simpa using h1) hseek
      exact ⟨m2, h3, by rw [h4, h2]⟩

/-- Opening `disk.zip|a.mkv` succeeds and its handle has the tar formats. -/
theorem unsafe_formats_on_every_open_witness :
    ∃ mpa, (archive_entry_open disk_env (unopened "disk.zip|a.mkv".toList)).2.priv.mpa = some mpa
      ∧ mpa.arch.formats = unsafe_formats :=
  (unsafe_formats_on_every_open disk_env (unopened "disk.zip|a.mkv".toList)
    (archive_entry_open disk_env (unopened "disk.zip|a.mkv".toList)).2 rfl).1

/-- C8 as stated fails: the first open of `disk.zip|a.mkv` succeeds with a
handle on which gnutar and tar are registered. -/
theorem first_open_without_unsafe_refuted :
    (archive_entry_open disk_env (unopened "disk.zip|a.mkv".toList)).1 = STREAM_OK
    ∧ ((archive_entry_open disk_env (unopened "disk.zip|a.mkv".toList)).2.priv.mpa.map
        (fun mpa => mpa.arch.formats))
        = some [Format.sevenzip, Format.iso9660, Format.rar, Format.zip,
                Format.gnutar, Format.tar] := by
  decide

/-! ## Dead streams -/

/-- A native seek that fails leaves the session as it was. -/
theorem archive_seek_data_failed (a : archive) (offset : Int)
    (h : (archive_seek_data a offset).1 < 0) : (archive_seek_data a offset).2 = a := by
  unfold archive_seek_data at h ⊢
  split
  · rfl
  · rename_i e he
    simp only [he] at h
    simp only
    split
    · rfl
    · rename_i hr
      simp only [hr, if_false] at h

/-- Writing the handle back into the private state changes nothing. -/
theorem put_handle_back (s : stream_t) (mpa : mp_archive) (h : s.priv.mpa = some mpa) :
    ({ s with priv := { s.priv with mpa := some { arch := mpa.arch } } } : stream_t) = s := by
  cases s with
  | mk path pos seekable pr fb sk cl ct =>
    cases pr with
    | mk m src sz nm =>
      simp only at h
      subst h
      rfl

/-- A failed reopen of a stream that has its primary stream leaves no
handle. -/
theorem reopen_archive_failed (env : Env) (s : stream_t) (src : stream)
    (hsrc : s.priv.src = some src) (h : (reopen_archive env s).1 < STREAM_OK) :
    (reopen_archive env s).2.priv.mpa = none := by
  unfold reopen_archive at h ⊢
  simp only [hsrc] at h ⊢
  split
  · rfl
  · rename_i mpa hn
    simp only [hn] at h
    split
    · rename_i found hf
      simp only [hf] at h
      exact absurd h (by decide)
    · rfl

/-- A read on a dead stream returns 0 and changes nothing. -/
theorem fill_buffer_dead (s : stream_t) (max_len : Nat) (h : s.priv.mpa = none) :
    archive_entry_fill_buffer s max_len = (0, s) := by
  simp [archive_entry_fill_buffer, h]

/-- A seek on a dead stream fails and changes nothing. -/
theorem seek_dead (env : Env) (fuel : Nat) (s : stream_t) (newpos : Int)
    (h : s.priv.mpa = none) : archive_entry_seek env fuel s newpos = some (-1, s) := by
  simp [archive_entry_seek, h]

/-- On a dead stream every later read returns 0. -/
theorem run_ops_dead (ops : List Op) :
    ∀ s : stream_t, s.priv.mpa = none →
      run_ops s ops = some (List.replicate (ops.countP Op.is_fill) 0) := by
  induction ops with
  | nil => intro s _; rfl
  | cons op rest ih =>
    intro s h
    cases op with
    | fill max_len =>
      simp [run_ops, fill_buffer_dead s max_len h, ih s h, Op.is_fill, List.replicate_succ]
    | seek env fuel newpos =>
      simp [run_ops, seek_dead env fuel s newpos h, ih s h, Op.is_fill]
    | set_pos pos =>
      have h2 : ({ s with pos := pos } : stream_t).priv.mpa = none := h
      simp [run_ops, ih _ h2, Op.is_fill]

/-- C7: on a live entry stream, a backward seek that the decoder cannot do
natively and whose reopen fails, for whatever reason, returns -1 and leaves
the stream without a handle; in every later sequence of reads, seeks and
position updates each `archive_entry_fill_buffer` call returns 0. -/
theorem backward_seek_reopen_failure (env : Env) (fuel : Nat) (s : stream_t) (newpos : Int)
    (mpa : mp_archive) (src : stream)
    (hm : s.priv.mpa = some mpa) (hsrc : s.priv.src = some src)
    (hnat : (archive_seek_data mpa.arch newpos).1 < 0) (hback : newpos < s.pos)
    (hfail : (reopen_archive env s).1 < STREAM_OK) :
    ∃ t, archive_entry_seek env fuel s newpos = some (-1, t) ∧ t.priv.mpa = none
      ∧ ∀ ops, run_ops t ops = some (List.replicate (ops.countP Op.is_fill) 0) := by
  have hs1 : ({ s with priv := { s.priv with
      mpa := some { arch := (archive_seek_data mpa.arch newpos).2 } } } : stream_t) = s := by
    rw [archive_seek_data_failed _ _ hnat]
    exact put_handle_back s mpa hm
  have hn : ¬ (archive_seek_data mpa.arch newpos).1 ≥ 0 := by omega
  have hdead := reopen_archive_failed env s src hsrc hfail
  refine ⟨(reopen_archive env s).2, ?_, hdead, fun ops => run_ops_dead ops _ hdead⟩
  unfold archive_entry_seek
  simp only [hm, hs1, hn, if_false, hback, if_true, hfail]

/-- The three ways in which a reopen fails: no handle, or a handle whose
scan ends at the end of entries or at a header below warning severity. -/
theorem reopen_archive_fails_iff (env : Env) (s : stream_t) (src : stream)
    (hsrc : s.priv.src = some src) :
    (reopen_archive env s).1 < STREAM_OK ↔
      ((mp_archive_new env src MP_ARCHIVE_FLAG_UNSAFE).1 = none
        ∨ ∃ mpa, (mp_archive_new env src MP_ARCHIVE_FLAG_UNSAFE).1 = some mpa
            ∧ scan_loop s.priv.entry_name mpa.arch mpa.arch.headers 0 = none) := by
  unfold reopen_archive
  simp only [hsrc]
  cases hn : (mp_archive_new env src MP_ARCHIVE_FLAG_UNSAFE).1 with
  | none => simp [STREAM_ERROR, STREAM_OK]
  | some mpa =>
    cases hsc : scan_loop s.priv.entry_name mpa.arch mpa.arch.headers 0 with
    | none => simp [hsc, STREAM_ERROR, STREAM_OK]
    | some found => simp [hsc, STREAM_OK]

/-- After `disk.zip` lost its entries, seeking `disk_opened` back from
position 5 to 2 kills the stream. -/
theorem backward_seek_reopen_failure_witness :
    ∃ t, archive_entry_seek emptied_env 0 { disk_opened with pos := 5 } 2 = some (-1, t)
      ∧ t.priv.mpa = none
      ∧ ∀ ops, run_ops t ops = some (List.replicate (ops.countP Op.is_fill) 0) :=
  backward_seek_reopen_failure emptied_env 0 { disk_opened with pos := 5 } 2 disk_handle
    { url := "disk.zip".toList, pos := 7, seekable := true } rfl rfl (by decide) (by decide)
    (by decide)

/-! ## The read-and-discard loop at the end of data -/

/-- Once the data reader answers 0 to every request and the target is still
ahead, the read-and-discard loop is running at the end of any fuel. -/
theorem seek_forward_stuck (fuel : Nat) :
    ∀ (s : stream_t) (newpos : Int) (mpa : mp_archive) (e : archive_entry),
      s.priv.mpa = some mpa → mpa.arch.entry = some e →
      (∀ n, e.read_result mpa.arch.consumed n = 0) → s.pos < newpos →
      seek_forward fuel s newpos = none := by
  induction fuel with
  | zero =>
    intro s newpos mpa e _ _ _ hlt
    simp [seek_forward, hlt]
  | succ n ih =>
    intro s newpos mpa e hm he hz hlt
    have hgt : newpos > s.pos := hlt
    have hread : ∀ k, archive_read_data mpa.arch k = (0, mpa.arch) := by
      intro k
      simp only [archive_read_data, he, hz, lt_self_iff_false, if_false, Int.toNat_zero,
        add_zero]
      rw [← he]
    unfold seek_forward
    simp only [hgt, if_true, hm, hread]
    simp only [lt_self_iff_false, if_false, add_zero]
    exact ih _ newpos mpa e rfl he hz hlt

/-- C10 fails on the code: the stream `disk_opened` stands at position 0 of
an entry with ten bytes of data; a seek to position 15 reads the ten bytes,
after which the reader answers 0 and the loop of `archive_entry_seek` is
still running at the end of every amount of fuel. -/
theorem seek_past_end_never_returns :
    ∀ fuel : Nat, archive_entry_seek disk_env fuel disk_opened 15 = none := by
  intro fuel
  have hm : disk_opened.priv.mpa = some disk_handle := rfl
  have hs1 : ({ disk_opened with priv := { disk_opened.priv with
      mpa := some { arch := (archive_seek_data disk_handle.arch 15).2 } } } : stream_t)
      = disk_opened := rfl
  have hn : ¬ (archive_seek_data disk_handle.arch 15).1 ≥ 0 := by decide
  have hpos : ¬ (15 : Int) < disk_opened.pos := by decide
  unfold archive_entry_seek
  simp only [hm, hs1, hn, if_false, hpos]
  cases fuel with
  | zero => rfl
  | succ n =>
    have hgt : (15 : Int) > disk_opened.pos := by decide
    unfold seek_forward
    simp only [hgt, if_true, hm]
    have hr : ¬ (archive_read_data disk_handle.arch (min (15 - disk_opened.pos) 4096).toNat).1
        < 0 := by decide
    simp only [hr, if_false]
    exact seek_forward_stuck n _ 15
      { arch := (archive_read_data disk_handle.arch (min (15 - disk_opened.pos) 4096).toNat).2 }
      sample_file rfl rfl
      (fun k => by
        show ((min k (10 - 10) : Nat) : Int) = 0
        simp)
      (by decide)

/-! ## The volume list of a new handle -/

/-- The probing loop with attach steps that succeed: it attaches one owning
volume per address of the longest initial run that opens, and hands to
`stream_create` that run and the first address that fails. -/
theorem open_volumes_run (env : Env) (pattern : file_pattern) (base : CStr)
    (happ : ∀ n, env.archive_read_append_callback_data n = ARCHIVE_OK) (fuel : Nat) :
    ∀ (i : Nat) (a : archive) (tried : List CStr), i + fuel = pattern.stop + 1 →
      open_volumes env pattern base fuel i a tried
        = (some { a with
              dataset := a.dataset ++ owned_volumes env
                (opened_run env ((List.range' i fuel).map (pattern.url base))) },
           tried ++ ((List.range' i fuel).map (pattern.url base)).take
             ((opened_run env ((List.range' i fuel).map (pattern.url base))).length + 1)) := by
  induction fuel with
  | zero =>
    intro i a tried _
    simp [open_volumes, opened_run, owned_volumes]
  | succ n ih =>
    intro i a tried hi
    have hle : i ≤ pattern.stop := by omega
    cases hc : env.stream_create (pattern.url base i) false with
    | none =>
      simp [open_volumes, hle, hc, opened_run, owned_volumes, List.range'_succ,
        List.takeWhile]
    | some st =>
      have hv : add_volume env a st true
          = (true, { a with
              dataset := a.dataset ++ [{ src := (env.stream_seek st 0).2, own_stream := true }] })
          := by
        simp [add_volume, happ]
      simp only [open_volumes, hle, if_true, hc, hv]
      rw [ih (i + 1) _ _ (by omega)]
      simp [opened_run, owned_volumes, List.range'_succ, List.takeWhile, hc,
        List.filterMap_cons]

/-- The loop of `find_volume_pattern` returns table entries only. -/
theorem find_in_mem (l : CStr) (ps : List file_pattern) (p : file_pattern)
    (h : find_in l ps = some p) : p ∈ ps := by
  induction ps with
  | nil => simp [find_in] at h
  | cons q qs ih =>
    unfold find_in at h
    split at h
    · exact List.mem_cons_of_mem _ (ih h)
    · split at h
      · simp at h
        simp [h]
      · exact List.mem_cons_of_mem _ (ih h)

/-- Every address of the run yields its volume. -/
theorem owned_volumes_length (env : Env) (c : List CStr) :
    (owned_volumes env (opened_run env c)).length = (opened_run env c).length := by
  induction c with
  | nil => rfl
  | cons u us ih =>
    cases hc : env.stream_create u false with
    | none => simp [opened_run, owned_volumes, List.takeWhile, hc]
    | some st =>
      simp only [opened_run, owned_volumes] at ih
      simp [opened_run, owned_volumes, List.takeWhile, hc, List.filterMap_cons, ih]

/-- The block "try to open other volumes" with attach steps that succeed,
in terms of the candidate addresses. -/
theorem probe_volumes_run (env : Env) (src : stream) (a : archive)
    (happ : ∀ n, env.archive_read_append_callback_data n = ARCHIVE_OK) :
    probe_volumes env src a
      = (some { a with
            dataset := a.dataset
              ++ owned_volumes env (opened_run env (volume_candidates src.url)) },
         (volume_candidates src.url).take
           ((opened_run env (volume_candidates src.url)).length + 1)) := by
  cases hp : find_volume_pattern src.url with
  | none => simp [probe_volumes, volume_candidates, hp, opened_run, owned_volumes]
  | some pattern =>
    have hmem : pattern ∈ patterns := find_in_mem _ _ _ hp
    have hrange : pattern.start + (pattern.stop + 1 - pattern.start) = pattern.stop + 1 := by
      have hall : ∀ q ∈ patterns, q.start ≤ q.stop + 1 := by decide
      have := hall pattern hmem
      omega
    have hcand : volume_candidates src.url
        = (List.range' pattern.start (pattern.stop + 1 - pattern.start)).map
            (pattern.url (volume_base src.url pattern)) := by
      simp [volume_candidates, hp]
    simp only [probe_volumes, hp, open_volumes_run env pattern _ happ _ _ _ _ hrange, ← hcand,
      List.nil_append]

/-- Registering formats and installing callbacks attaches no volume. -/
theorem registration_dataset (a : archive) (flags : Nat) (src : stream) :
    (install_callbacks (register_formats a flags) src).dataset = a.dataset := by
  simp [install_callbacks, register_formats, apply_ite archive.dataset]

/-- C5: when the session is created, every attach step succeeds and the
final open succeeds, the handle built by `mp_archive_new` lists the primary
stream as a volume that does not own it, followed by one owning volume for
each address of the longest initial run of candidates that all open. The
addresses handed to `stream_create` are that run and the first candidate
that fails, nothing after it; the list has at most one volume per index of
the pattern besides the primary, and it is the primary alone when no
pattern suffix ends the address. -/
theorem new_handle_volumes (env : Env) (src : stream) (flags : Nat)
    (hnew : env.archive_read_new_ok = true)
    (happ : ∀ n, env.archive_read_append_callback_data n = ARCHIVE_OK)
    (hopen : ¬ env.archive_read_open1 < ARCHIVE_OK) :
    ∃ mpa,
      mp_archive_new env src flags
        = (some mpa, (volume_candidates src.url).take
            ((opened_run env (volume_candidates src.url)).length + 1))
      ∧ mpa.arch.dataset
          = primary_volume env src
            :: owned_volumes env (opened_run env (volume_candidates src.url))
      ∧ mpa.arch.dataset.length = 1 + (opened_run env (volume_candidates src.url)).length
      ∧ (∀ pattern, find_volume_pattern src.url = some pattern →
          mpa.arch.dataset.length ≤ 1 + (pattern.stop + 1 - pattern.start))
      ∧ (find_volume_pattern src.url = none → mpa.arch.dataset = [primary_volume env src]) := by
  have hfirst : ∀ a0 : archive, a0.dataset = [] →
      add_volume env a0 src false
        = (true, { a0 with dataset := [primary_volume env src] }) := by
    intro a0 h0
    simp [add_volume, happ, h0, primary_volume]
  have hlen : (opened_run env (volume_candidates src.url)).length
      ≤ (volume_candidates src.url).length := (List.takeWhile_sublist _).length_le
  have hnewmpa : ∃ mpa,
      mp_archive_new env src flags
        = (some mpa, (volume_candidates src.url).take
            ((opened_run env (volume_candidates src.url)).length + 1))
      ∧ mpa.arch.dataset
          = primary_volume env src
            :: owned_volumes env (opened_run env (volume_candidates src.url)) := by
    have hf0 :=
      hfirst
        { dataset := [], formats := [], filters := [], callbacks := [],
          headers := [], entry := none, consumed := 0 }
        rfl
    have hsnd : (mp_archive_new env src flags).2
        = (volume_candidates src.url).take
            ((opened_run env (volume_candidates src.url)).length + 1) := by
      simp only [mp_archive_new, archive_read_new, hnew, if_true, hf0,
        probe_volumes_run env src _ happ, hopen, if_false]
    have hfst : ∃ mpa, (mp_archive_new env src flags).1 = some mpa
        ∧ mpa.arch.dataset
          = primary_volume env src
            :: owned_volumes env (opened_run env (volume_candidates src.url)) := by
      simp only [mp_archive_new, archive_read_new, hnew, if_true, hf0,
        probe_volumes_run env src _ happ, hopen, if_false]
      refine ⟨_, rfl, ?_⟩
      simp only
      rw [registration_dataset]
      simp
    obtain ⟨mpa, hm1, hm2⟩ := hfst
    exact ⟨mpa, Prod.ext hm1 hsnd, hm2⟩
  obtain ⟨mpa, h1, h2⟩ := hnewmpa
  refine ⟨mpa, h1, h2, ?_, ?_, ?_⟩
  · rw [h2]
    simp [owned_volumes_length, Nat.add_comm]
  · intro pattern hp
    have hcl : (volume_candidates src.url).length = pattern.stop + 1 - pattern.start := by
      simp [volume_candidates, hp]
    rw [h2]
    simp only [List.length_cons, owned_volumes_length]
    omega
  · intro hp
    rw [h2]
    simp [volume_candidates, hp, opened_run, owned_volumes]

/-- With parts 1, 2, 3 and 5 present and part 4 missing, the handle has
three volumes and the probe stops at part 4. -/
theorem new_handle_volumes_witness :
    ∃ mpa,
      mp_archive_new parts_env parts_primary 0
        = (some mpa, ["x.part2.rar".toList, "x.part3.rar".toList, "x.part4.rar".toList])
      ∧ mpa.arch.dataset
          = [{ src := { url := "x.part1.rar".toList, pos := 0, seekable := true },
               own_stream := false },
             { src := { url := "x.part2.rar".toList, pos := 0, seekable := true },
               own_stream := true },
             { src := { url := "x.part3.rar".toList, pos := 0, seekable := true },
               own_stream := true }] := by
  obtain ⟨mpa, h1, h2, _⟩ :=
    new_handle_volumes parts_env parts_primary 0 rfl (fun _ => rfl) (by decide)
  refine ⟨mpa, ?_, ?_⟩
  · rw [h1]
    exact congrArg (Prod.mk (some mpa)) (by decide)
  · rw [h2]
    decide

/-! ## Entry resolution -/

/-- A match at the first header. -/
theorem reaches_match_zero (name : CStr) (n0 : Nat) (hd : header) (rest : List header) :
    reaches_match name n0 (hd :: rest) 0 ↔
      (hd.r ≠ ARCHIVE_EOF ∧ ¬ hd.r < ARCHIVE_WARN) ∧ hd.entry.filetype = AE_IFREG
        ∧ name = display_name hd.entry n0 := by
  constructor
  · rintro ⟨h, hk, hreg, hname, hall⟩
    simp only [List.getElem?_cons_zero, Option.some.injEq] at hk
    subst hk
    refine ⟨hall 0 hd (Nat.le_refl 0) (by simp), hreg, ?_⟩
    simpa [regular_before] using hname
  · rintro ⟨hr, hreg, hname⟩
    refine ⟨hd, by simp, hreg, by simpa [regular_before] using hname, ?_⟩
    intro j hj hj0 hget
    have : j = 0 := by omega
    subst this
    simp only [List.getElem?_cons_zero, Option.some.injEq] at hget
    subst hget
    exact hr

/-- A match behind the first header. -/
theorem reaches_match_succ (name : CStr) (n0 k : Nat) (hd : header) (rest : List header) :
    reaches_match name n0 (hd :: rest) (k + 1) ↔
      (hd.r ≠ ARCHIVE_EOF ∧ ¬ hd.r < ARCHIVE_WARN)
        ∧ reaches_match name (n0 + if hd.entry.filetype = AE_IFREG then 1 else 0) rest k := by
  have hcount : regular_before (hd :: rest) (k + 1)
      = (if hd.entry.filetype = AE_IFREG then 1 else 0) + regular_before rest k := by
    unfold regular_before
    by_cases hreg : hd.entry.filetype = AE_IFREG
    · simp [List.take_succ_cons, List.filter_cons, hreg, Nat.add_comm]
    · simp [List.take_succ_cons, List.filter_cons, hreg]
  constructor
  · rintro ⟨h, hk, hreg, hname, hall⟩
    refine ⟨hall 0 hd (Nat.zero_le _) (by simp), h, by simpa using hk, hreg, ?_, ?_⟩
    · rw [hname, hcount, Nat.add_assoc]
    · intro j hj hjk hget
      exact hall (j + 1) hj (by omega) (by simpa using hget)
  · rintro ⟨hr, h, hk, hreg, hname, hall⟩
    refine ⟨h, by simpa using hk, hreg, ?_, ?_⟩
    · rw [hname, hcount, Nat.add_assoc]
    · intro j hj hjk hget
      cases j with
      | zero =>
        simp only [List.getElem?_cons_zero, Option.some.injEq] at hget
        subst hget
        exact hr
      | succ j' => exact hall j' hj (by omega) (by simpa using hget)

/-- A scan that fails reached no match. -/
theorem scan_loop_none (name : CStr) (hs : List header) :
    ∀ (a : archive) (n0 : Nat), scan_loop name a hs n0 = none →
      ∀ k, ¬ reaches_match name n0 hs k := by
  induction hs with
  | nil =>
    intro a n0 _ k
    rintro ⟨h, hk, _⟩
    simp at hk
  | cons hd rest ih =>
    intro a n0 hscan k
    unfold scan_loop at hscan
    simp only at hscan
    cases k with
    | zero =>
      rw [reaches_match_zero]
      rintro ⟨⟨h1, h2⟩, hreg, hname⟩
      simp [h1, h2, hreg, hname] at hscan
    | succ k' =>
      rw [reaches_match_succ]
      rintro ⟨⟨h1, h2⟩, hrest⟩
      simp only [h1, h2, if_false] at hscan
      by_cases hreg : hd.entry.filetype = AE_IFREG
      · simp only [hreg, ne_eq, not_true_eq_false, if_false, if_true] at hscan hrest
        split at hscan
        · simp at hscan
        · exact ih _ _ hscan k' hrest
      · simp only [hreg, ne_eq, not_false_eq_true, if_true, if_false, Nat.add_zero]
          at hscan hrest
        exact ih _ _ hscan k' hrest

/-- A scan that succeeds stopped at the first match: it recorded the size of
that entry, or -1, and stands at the start of its data. -/
theorem scan_loop_some (name : CStr) (hs : List header) :
    ∀ (a : archive) (n0 : Nat) (found : Int × archive), scan_loop name a hs n0 = some found →
      ∃ k h, reaches_match name n0 hs k ∧ (∀ j, j < k → ¬ reaches_match name n0 hs j)
        ∧ hs[k]? = some h ∧ found.1 = h.entry.size.getD (-1)
        ∧ found.2.entry = some h.entry ∧ found.2.consumed = 0 := by
  induction hs with
  | nil =>
    intro a n0 found h
    simp [scan_loop] at h
  | cons hd rest ih =>
    intro a n0 found hscan
    unfold scan_loop at hscan
    simp only at hscan
    by_cases h1 : hd.r = ARCHIVE_EOF
    · simp [h1] at hscan
    by_cases h2 : hd.r < ARCHIVE_WARN
    · simp [h1, h2] at hscan
    simp only [h1, h2, if_false] at hscan
    by_cases hreg : hd.entry.filetype = AE_IFREG
    · simp only [hreg, ne_eq, not_true_eq_false, if_false] at hscan
      by_cases hname : name = display_name hd.entry n0
      · simp only [hname, if_true, Option.some.injEq] at hscan
        refine ⟨0, hd, ?_, ?_, by simp, ?_, ?_, ?_⟩
        · rw [reaches_match_zero]
          exact ⟨⟨h1, h2⟩, hreg, hname⟩
        · intro j hj
          omega
        · rw [← hscan]
          cases hd.entry.size <;> rfl
        · rw [← hscan]
        · rw [← hscan]
      · simp only [hname, if_false] at hscan
        obtain ⟨k, h, hk, hfirst, hget, hsz, hent, hcons⟩ := ih _ _ _ hscan
        refine ⟨k + 1, h, ?_, ?_, by simpa using hget, hsz, hent, hcons⟩
        · rw [reaches_match_succ]
          refine ⟨⟨h1, h2⟩, ?_⟩
          simpa [hreg] using hk
        · intro j hj
          cases j with
          | zero =>
            rw [reaches_match_zero]
            rintro ⟨_, _, hn⟩
            exact hname hn
          | succ j' =>
            rw [reaches_match_succ]
            rintro ⟨_, hr⟩
            simp only [hreg, if_true] at hr
            exact hfirst j' (by omega) hr
    · simp only [hreg, ne_eq, not_false_eq_true, if_true] at hscan
      obtain ⟨k, h, hk, hfirst, hget, hsz, hent, hcons⟩ := ih _ _ _ hscan
      refine ⟨k + 1, h, ?_, ?_, by simpa using hget, hsz, hent, hcons⟩
      · rw [reaches_match_succ]
        refine ⟨⟨h1, h2⟩, ?_⟩
        simpa [hreg] using hk
      · intro j hj
        cases j with
        | zero =>
          rw [reaches_match_zero]
          rintro ⟨_, hr, _⟩
          exact hreg hr
        | succ j' =>
          rw [reaches_match_succ]
          rintro ⟨_, hr⟩
          simp only [hreg, if_false, Nat.add_zero] at hr
          exact hfirst j' (by omega) hr

/-- The header answers of a new handle are those of the environment. -/
theorem mp_archive_new_headers (env : Env) (src : stream) (flags : Nat) (mpa : mp_archive)
    (h : (mp_archive_new env src flags).1 = some mpa) : mpa.arch.headers = env.headers := by
  unfold mp_archive_new at h
  split at h
  · simp at h
  · simp only at h
    split at h
    · split at h
      · simp at h
      · split at h
        · simp at h
        · simp only [Option.some.injEq] at h
          rw [← h]
    · simp at h

/-- C2: once the handle is created, `reopen_archive` succeeds exactly when
the scan in encounter order reaches a regular-file entry whose display name
equals the requested name before the end of entries or a header result
below warning severity. An entry that is not a regular file is never the
match, whatever its pathname; when the scan reaches no match the result is
STREAM_ERROR and no handle is left; on success the recorded size is the
size of the first match, or -1 when that size is not set, and the handle
stands at the start of the data of that entry. -/
theorem reopen_archive_resolves (env : Env) (s : stream_t) (src : stream) (mpa : mp_archive)
    (hsrc : s.priv.src = some src)
    (hnew : (mp_archive_new env src MP_ARCHIVE_FLAG_UNSAFE).1 = some mpa) :
    ((reopen_archive env s).1 = STREAM_OK
        ↔ ∃ k, reaches_match s.priv.entry_name 0 env.headers k)
    ∧ (∀ k h, env.headers[k]? = some h → h.entry.filetype ≠ AE_IFREG →
        ¬ reaches_match s.priv.entry_name 0 env.headers k)
    ∧ ((¬ ∃ k, reaches_match s.priv.entry_name 0 env.headers k) →
        (reopen_archive env s).1 = STREAM_ERROR ∧ (reopen_archive env s).2.priv.mpa = none)
    ∧ (∀ k h, reaches_match s.priv.entry_name 0 env.headers k →
        (∀ j, j < k → ¬ reaches_match s.priv.entry_name 0 env.headers j) →
        env.headers[k]? = some h →
        (reopen_archive env s).2.priv.entry_size = h.entry.size.getD (-1)
          ∧ ∃ m, (reopen_archive env s).2.priv.mpa = some m
              ∧ m.arch.entry = some h.entry ∧ m.arch.consumed = 0) := by
  have hh := mp_archive_new_headers env src _ mpa hnew
  have hre : reopen_archive env s =
      match scan_loop s.priv.entry_name mpa.arch env.headers 0 with
      | some found =>
        (STREAM_OK, { s with priv := { s.priv with mpa := some { arch := found.2 },
                                                   entry_size := found.1 } })
      | none => (STREAM_ERROR, { s with priv := { s.priv with mpa := none } }) := by
    simp only [reopen_archive, hsrc, hnew, hh]
  refine ⟨?_, ?_, ?_, ?_⟩
  · cases hsc : scan_loop s.priv.entry_name mpa.arch env.headers 0 with
    | none =>
      have hno := scan_loop_none _ _ _ _ hsc
      simp only [hre, hsc]
      constructor
      · intro h
        exact absurd h (by decide)
      · rintro ⟨k, hk⟩
        exact absurd hk (hno k)
    | some found =>
      obtain ⟨k, h, hk, _⟩ := scan_loop_some _ _ _ _ _ hsc
      simp only [hre, hsc]
      exact ⟨fun _ => ⟨k, hk⟩, fun _ => trivial⟩
  · rintro k h hget hnreg ⟨h2, hget2, hreg, _⟩
    rw [hget] at hget2
    simp only [Option.some.injEq] at hget2
    subst hget2
    exact hnreg hreg
  · intro hno
    cases hsc : scan_loop s.priv.entry_name mpa.arch env.headers 0 with
    | none => simp only [hre, hsc, and_self]
    | some found =>
      obtain ⟨k, h, hk, _⟩ := scan_loop_some _ _ _ _ _ hsc
      exact absurd ⟨k, hk⟩ hno
  · intro k h hk hfirst hget
    cases hsc : scan_loop s.priv.entry_name mpa.arch env.headers 0 with
    | none => exact absurd hk (scan_loop_none _ _ _ _ hsc k)
    | some found =>
      obtain ⟨k2, h2, hk2, hfirst2, hget2, hsz, hent, hcons⟩ := scan_loop_some _ _ _ _ _ hsc
      have hkk : k2 = k := by
        rcases Nat.lt_trichotomy k2 k with hlt | heq | hgt
        · exact absurd hk2 (hfirst k2 hlt)
        · exact heq
        · exact absurd hk (hfirst2 k hgt)
      subst hkk
      rw [hget] at hget2
      simp only [Option.some.injEq] at hget2
      subst hget2
      simp only [hre, hsc]
      exact ⟨hsz, _, rfl, hent, hcons⟩

/-- In `disk.zip` the directory `a.mkv` comes first and is passed over; the
open resolves the file `a.mkv` behind it and records its size 10. -/
theorem reopen_archive_resolves_witness :
    ((reopen_archive disk_env disk_opened).1 = STREAM_OK
        ↔ ∃ k, reaches_match "a.mkv".toList 0 disk_env.headers k)
    ∧ ¬ reaches_match "a.mkv".toList 0 disk_env.headers 0
    ∧ (reopen_archive disk_env disk_opened).2.priv.entry_size = 10 := by
  have h := reopen_archive_resolves disk_env disk_opened
    { url := "disk.zip".toList, pos := 7, seekable := true } disk_new_handle rfl rfl
  have hreach : reaches_match "a.mkv".toList 0 disk_env.headers 1 :=
    ⟨⟨ARCHIVE_WARN, sample_file⟩, rfl, rfl, rfl, by
      intro j hj hle hget
      have hj01 : j = 0 ∨ j = 1 := by omega
      rcases hj01 with h0 | h1
      · subst h0
        simp only [disk_env, sample_env, List.getElem?_cons_zero, Option.some.injEq] at hget
        subst hget
        decide
      · subst h1
        simp only [disk_env, sample_env, List.getElem?_cons_succ, List.getElem?_cons_zero,
          Option.some.injEq] at hget
        subst hget
        decide⟩
  have hdir : ¬ reaches_match "a.mkv".toList 0 disk_env.headers 0 :=
    h.2.1 0 ⟨ARCHIVE_OK, sample_dir⟩ rfl (by decide)
  refine ⟨h.1, hdir, ?_⟩
  have hsz := (h.2.2.2 1 ⟨ARCHIVE_WARN, sample_file⟩ hreach
    (fun j hj => by
      have : j = 0 := by omega
      subst this
      exact hdir) rfl).1
  exact hsz

/-! ## Seek emulation -/

/-- The loop stops at once when the target is not ahead. -/
theorem seek_forward_done (fuel : Nat) (s : stream_t) (newpos : Int) (h : ¬ newpos > s.pos) :
    seek_forward fuel s newpos = some (1, s) := by
  cases fuel <;> simp [seek_forward, h]

/-- One iteration of the loop on a replayed state: the reader is asked for
the distance to the target, at most 4096 bytes, and on success the state is
the replay by the bytes delivered. -/
theorem seek_forward_step (fuel : Nat) (f : stream_t) (mpa : mp_archive) (e : archive_entry)
    (P : Int) (c : Nat) (hmpa : f.priv.mpa = some mpa) (hentry : mpa.arch.entry = some e)
    (hc : (c : Int) < P) :
    seek_forward (fuel + 1) (replay f c) P
      = if e.read_result c (min (P - c) 4096).toNat < 0 then some (-1, replay f c)
        else seek_forward fuel
          (replay f (c + (e.read_result c (min (P - c) 4096).toNat).toNat)) P := by
  have hgt : P > (replay f c).pos := by simpa [replay] using hc
  rw [seek_forward]
  simp only [hgt, if_true]
  simp only [replay, hmpa, Option.map_some', archive_read_data, hentry]
  by_cases hr : e.read_result c (min (P - c) 4096).toNat < 0
  · simp only [hr, if_true]
  · simp only [hr, if_false]
    have hcast : ((c + (e.read_result c (min (P - c) 4096).toNat).toNat : Nat) : Int)
        = (c : Int) + e.read_result c (min (P - c) 4096).toNat := by
      have := Int.toNat_of_nonneg (le_of_not_lt hr)
      push_cast
      omega
    rw [hcast]

/-- If the loop started on a replayed state returns success, it returns the
replay to the target. -/
theorem seek_forward_replay_sound (f : stream_t) (mpa : mp_archive) (e : archive_entry)
    (P : Int) (hmpa : f.priv.mpa = some mpa) (hentry : mpa.arch.entry = some e)
    (hle : ∀ c n, e.read_result c n ≤ n) (fuel : Nat) :
    ∀ (c : Nat) (t : stream_t), (c : Int) ≤ P →
      seek_forward fuel (replay f c) P = some (1, t) → t = replay f P.toNat := by
  induction fuel with
  | zero =>
    intro c t hc h
    by_cases hgt : P > (replay f c).pos
    · simp [seek_forward, hgt] at h
    · rw [seek_forward_done 0 _ _ hgt] at h
      simp only [Option.some.injEq, Prod.mk.injEq, true_and] at h
      have hP : P = c := by
        have : ¬ P > (c : Int) := by simpa [replay] using hgt
        omega
      rw [← h, hP, Int.toNat_ofNat]
  | succ n ih =>
    intro c t hc h
    by_cases hlt : (c : Int) < P
    · rw [seek_forward_step n f mpa e P c hmpa hentry hlt] at h
      split at h
      · simp at h
      · rename_i hr
        have hr0 : 0 ≤ e.read_result c (min (P - c) 4096).toNat := le_of_not_lt hr
        have hbound := hle c (min (P - c) 4096).toNat
        have hnext : ((c + (e.read_result c (min (P - c) 4096).toNat).toNat : Nat) : Int) ≤ P := by
          have := Int.toNat_of_nonneg hr0
          have h2 : (((min (P - c) 4096).toNat : Nat) : Int) = min (P - c) 4096 :=
            Int.toNat_of_nonneg (by omega)
          push_cast
          omega
        exact ih _ t hnext h
    · have hgt : ¬ P > (replay f c).pos := by simpa [replay] using hlt
      rw [seek_forward_done _ _ _ hgt] at h
      simp only [Option.some.injEq, Prod.mk.injEq, true_and] at h
      have hP : P = c := by omega
      rw [← h, hP, Int.toNat_ofNat]

/-- With a reader that delivers at least one byte as long as fewer than the
target were delivered, the loop started on a replayed state reaches the
target within as many iterations as bytes are missing. -/
theorem seek_forward_replay_complete (f : stream_t) (mpa : mp_archive) (e : archive_entry)
    (P : Int) (hmpa : f.priv.mpa = some mpa) (hentry : mpa.arch.entry = some e)
    (hle : ∀ c n, e.read_result c n ≤ n)
    (hprog : ∀ c n : Nat, (c : Int) < P → 0 < n → 0 < e.read_result c n) (fuel : Nat) :
    ∀ (c : Nat), (c : Int) ≤ P → P.toNat - c ≤ fuel →
      seek_forward fuel (replay f c) P = some (1, replay f P.toNat) := by
  induction fuel with
  | zero =>
    intro c hc hf
    have hP : P = c := by omega
    have hgt : ¬ P > (replay f c).pos := by simp [replay, hP]
    rw [seek_forward_done 0 _ _ hgt, hP, Int.toNat_ofNat]
  | succ n ih =>
    intro c hc hf
    by_cases hlt : (c : Int) < P
    · rw [seek_forward_step n f mpa e P c hmpa hentry hlt]
      have hsz : 0 < (min (P - c) 4096).toNat := by omega
      have hpos := hprog c _ hlt hsz
      have hbound := hle c (min (P - c) 4096).toNat
      have hr : ¬ e.read_result c (min (P - c) 4096).toNat < 0 := by omega
      simp only [hr, if_false]
      have h1 := Int.toNat_of_nonneg (le_of_not_lt hr)
      have h2 : (((min (P - c) 4096).toNat : Nat) : Int) = min (P - c) 4096 :=
        Int.toNat_of_nonneg (by omega)
      apply ih
      · push_cast
        omega
      · omega
    · have hgt : ¬ P > (replay f c).pos := by simpa [replay] using hlt
      have hP : P = c := by omega
      rw [seek_forward_done _ _ _ hgt, hP, Int.toNat_ofNat]

/-- A reopen that succeeds leaves the data reader at the start of the
entry. -/
theorem reopen_archive_fresh (env : Env) (s f : stream_t) (mpa : mp_archive)
    (h : reopen_archive env s = (STREAM_OK, f)) (hmpa : f.priv.mpa = some mpa) :
    mpa.arch.consumed = 0 := by
  unfold reopen_archive at h
  split at h
  · simp [STREAM_ERROR, STREAM_OK] at h
  · split at h
    · simp [STREAM_ERROR, STREAM_OK] at h
    · split at h
      · rename_i found hsc
        obtain ⟨k, hd, _, _, _, _, _, hcons⟩ := scan_loop_some _ _ _ _ _ hsc
        simp only [Prod.mk.injEq, true_and] at h
        rw [← h] at hmpa
        simp only [Option.some.injEq] at hmpa
        rw [← hmpa]
        exact hcons
      · simp [STREAM_ERROR, STREAM_OK] at h

/-- Resetting the position of a freshly opened stream is the replay of no
bytes. -/
theorem replay_zero (f : stream_t) (mpa : mp_archive) (hmpa : f.priv.mpa = some mpa)
    (h0 : mpa.arch.consumed = 0) : ({ f with pos := 0 } : stream_t) = replay f 0 := by
  cases f with
  | mk path pos seekable pr fb sk cl ct =>
    cases pr with
    | mk m src sz nm =>
      simp only at hmpa
      subst hmpa
      cases mpa with
      | mk a =>
        cases a with
        | mk ds fm fl cb hs en cn =>
          simp only at h0
          subst h0
          rfl

/-- The function `archive_entry_seek` on a live stream whose decoder has no
native seek for the target: reopen for a target behind the position, then
the read-and-discard loop. -/
theorem archive_entry_seek_fallback (env : Env) (fuel : Nat) (s : stream_t) (newpos : Int)
    (mpa : mp_archive) (hm : s.priv.mpa = some mpa)
    (hnat : (archive_seek_data mpa.arch newpos).1 < 0) :
    archive_entry_seek env fuel s newpos
      = if newpos < s.pos then
          if (reopen_archive env s).1 < STREAM_OK then some (-1, (reopen_archive env s).2)
          else seek_forward fuel { (reopen_archive env s).2 with pos := 0 } newpos
        else seek_forward fuel s newpos := by
  have hs1 : ({ s with priv := { s.priv with
      mpa := some { arch := (archive_seek_data mpa.arch newpos).2 } } } : stream_t) = s := by
    rw [archive_seek_data_failed _ _ hnat]
    exact put_handle_back s mpa hm
  have hn : ¬ (archive_seek_data mpa.arch newpos).1 ≥ 0 := by omega
  unfold archive_entry_seek
  simp only [hm, hs1, hn, if_false]

/-- C1: let `f` be the entry opened fresh by `reopen_archive`, on an entry
without native seek whose reader never delivers more than it is asked for,
and let the stream `s` be `f` after reading its first `s.pos` bytes. For a
target `P` that is not negative, whenever `archive_entry_seek` returns
success the state is `f` after reading and discarding `P` bytes: the logical
position is `P` and the reader has delivered exactly `P` bytes, for a target
at or after the position (read on) and for a target before it (reopen, then
read `P` bytes). When the reader delivers at least one byte while fewer than
`P` were delivered, the seek does return success, within `P` iterations. -/
theorem seek_is_replay (env : Env) (s f : stream_t) (mpa : mp_archive) (e : archive_entry)
    (P : Int)
    (hfresh : reopen_archive env s = (STREAM_OK, f))
    (hmpa : f.priv.mpa = some mpa) (hentry : mpa.arch.entry = some e)
    (hready : s = replay f s.pos.toNat)
    (hnoseek : e.seek_result P < 0)
    (hle : ∀ c n, e.read_result c n ≤ n)
    (hP : 0 ≤ P) :
    (∀ fuel t, archive_entry_seek env fuel s P = some (1, t) →
        t = replay f P.toNat ∧ t.pos = P)
    ∧ ((∀ c n : Nat, (c : Int) < P → 0 < n → 0 < e.read_result c n) →
        ∀ fuel, P.toNat ≤ fuel →
          archive_entry_seek env fuel s P = some (1, replay f P.toNat)) := by
  have hcons0 := reopen_archive_fresh env s f mpa hfresh hmpa
  have hzero := replay_zero f mpa hmpa hcons0
  generalize s.pos.toNat = n at hready
  subst hready
  have hm : (replay f n).priv.mpa = some { arch := { mpa.arch with consumed := n } } := by
    simp [replay, hmpa]
  have hnat : (archive_seek_data { mpa.arch with consumed := n } P).1 < 0 := by
    simp [archive_seek_data, hentry, hnoseek]
  have hok : ¬ STREAM_OK < STREAM_OK := by decide
  have hseek : ∀ fuel, archive_entry_seek env fuel (replay f n) P
      = if P < (n : Int) then seek_forward fuel (replay f 0) P
        else seek_forward fuel (replay f n) P := by
    intro fuel
    have hp : (replay f n).pos = (n : Int) := rfl
    rw [archive_entry_seek_fallback env fuel (replay f n) P _ hm hnat]
    simp only [hp, hfresh, hok, if_false, hzero]
  have hPn : ((P.toNat : Nat) : Int) = P := Int.toNat_of_nonneg hP
  constructor
  · intro fuel t h
    rw [hseek] at h
    have ht : t = replay f P.toNat := by
      split at h
      · exact seek_forward_replay_sound f mpa e P hmpa hentry hle fuel 0 t (by simpa using hP) h
      · rename_i hge
        exact seek_forward_replay_sound f mpa e P hmpa hentry hle fuel n t (by omega) h
    refine ⟨ht, ?_⟩
    rw [ht]
    exact hPn
  · intro hprog fuel hf
    rw [hseek]
    split
    · exact seek_forward_replay_complete f mpa e P hmpa hentry hle hprog fuel 0
        (by simpa using hP) (by omega)
    · rename_i hge
      exact seek_forward_replay_complete f mpa e P hmpa hentry hle hprog fuel n
        (by omega) (by omega)

/-- The stream over `a.mkv` at position 5, sought back to position 2: the
archive is reopened and two bytes are read, which gives the fresh stream
replayed by two bytes. -/
theorem seek_is_replay_witness :
    archive_entry_seek disk_env 2 (replay disk_opened 5) 2
      = some (1, replay (reopen_archive disk_env (replay disk_opened 5)).2 2) :=
  (seek_is_replay disk_env (replay disk_opened 5)
    (reopen_archive disk_env (replay disk_opened 5)).2 disk_handle sample_file 2
    rfl rfl rfl rfl (by decide)
    (fun c n => by
      show ((min n (10 - c) : Nat) : Int) ≤ n
      omega)
    (by decide)).2
    (fun c n hc hn => by
      show 0 < ((min n (10 - c) : Nat) : Int)
      omega)
    2 (by decide)

end StreamLibarchive
